import Mathlib

/-!
Verification of the explorer's amount-normalization, precision-resolution,
pagination, transaction-decoding, REST-client and connection-lifecycle logic.

The definitions below are shallow embeddings of the TypeScript sources:
* `src/rpc/metadata/index.ts` (asset metadata client),
* `src/rpc/indexer/index.ts` (indexer client and the `AccountDetail`
  component, including `formatBalance`, `formatSubaccountAsset`, the
  exponent-map ingestion, the transaction-decoding loop and the IBC-token
  pagination),
* `src/components/Connect/index.tsx` (`connectClient`).

JavaScript `Map`s keyed by strings are embedded as association lists in
insertion order; `undefined` becomes `Option.none`; JS numbers used as
exponents become `Int`; raw on-chain amounts (decimal strings) are parsed
into `Nat`/`ℚ`.  The few helpers that live in `@/utils/cosmos` (absent from
the sources) are modelled from the specification and are marked as such in
their doc comments.
-/

/-! ### Asset metadata and the precision resolver -/

/-- The `AssetInfo` record of `src/rpc/metadata/index.ts`.  The three
precision fields are optional JS numbers (`undefined` when absent), embedded
as `Option Int`. -/
structure AssetInfo where
  symbol : String
  name : String
  decimals : Option Int
  atomicResolution : Option Int
  denomExponent : Option Int
  deriving DecidableEq, Repr

/-- The precision-precedence expression
`info.atomicResolution ?? info.denomExponent ?? info.decimals` used at the
metadata-ingestion site, in `formatBalance` and in `formatSubaccountAsset`
(`src/rpc/indexer/index.ts`). -/
def resolveExponent (info : AssetInfo) : Option Int :=
  info.atomicResolution.orElse fun _ =>
    info.denomExponent.orElse fun _ => info.decimals

/-- Lookup in a string-keyed JS `Map` embedded as an association list
(first binding wins; JS maps have unique keys). -/
def mapGet : List (String × Int) → String → Option Int
  | [], _ => none
  | (k, v) :: rest, s => if k = s then some v else mapGet rest s

/-- `Map.set`: updates the value in place when the key is present (keeping
its position in insertion order), otherwise appends a new binding. -/
def mapSet : List (String × Int) → String → Int → List (String × Int)
  | [], k, v => [(k, v)]
  | (k', v') :: rest, k, v =>
    if k' = k then (k', v) :: rest else (k', v') :: mapSet rest k v

/-- Lookup in the `assetInfoMap` (a JS `Map<string, AssetInfo>`). -/
def infoGet : List (String × AssetInfo) → String → Option AssetInfo
  | [], _ => none
  | (k, v) :: rest, s => if k = s then some v else infoGet rest s

/-- The metadata-ingestion loop of `AccountDetail`
(`Object.entries(assetInfo).forEach`): an entry is added to the exponent map
only when the resolved precedence value is defined and strictly positive
(`exponent !== undefined && exponent > 0`). -/
def buildExponentMapAux : List (String × AssetInfo) → List (String × Int) →
    List (String × Int)
  | [], m => m
  | (symbol, info) :: rest, m =>
    match resolveExponent info with
    | some e =>
      if 0 < e then buildExponentMapAux rest (mapSet m symbol e)
      else buildExponentMapAux rest m
    | none => buildExponentMapAux rest m

/-- The `exponentMap` produced from the metadata response, starting empty. -/
def buildExponentMap (entries : List (String × AssetInfo)) :
    List (String × Int) :=
  buildExponentMapAux entries []

/-- Character-level lowercase, embedding `String.prototype.toLowerCase`. -/
def strToLower (s : String) : String :=
  String.mk (s.data.map Char.toLower)

/-- Does the first list begin with the second one? -/
def listStartsWith : List Char → List Char → Bool
  | _, [] => true
  | [], _ :: _ => false
  | a :: as, b :: bs => a == b && listStartsWith as bs

/-- Substring containment on character lists, embedding
`String.prototype.includes`. -/
def listHasSub : List Char → List Char → Bool
  | [], needle => needle.isEmpty
  | a :: as, needle => listStartsWith (a :: as) needle || listHasSub as needle

/-- `hay.includes(needle)` for strings. -/
def strHasSub (hay needle : String) : Bool :=
  listHasSub hay.data needle.data

/-- `s.startsWith(t)` for strings (character-level). -/
def strStartsWith (s t : String) : Bool :=
  listStartsWith s.data t.data

/-- The fuzzy-match condition of `formatBalance`:
`denomLower === symbolLower || denomLower.includes(symbolLower) ||
symbolLower.includes(denomLower)`. -/
def fuzzyMatches (denom symbol : String) : Bool :=
  let dl := strToLower denom
  let sl := strToLower symbol
  dl == sl || strHasSub dl sl || strHasSub sl dl

/-- Does the resolved precedence value of `info` exist and is it strictly
positive?  (The break condition of the fuzzy-match loop.) -/
def posResolve (info : AssetInfo) : Bool :=
  match resolveExponent info with
  | some v => decide (0 < v)
  | none => false

/-- Is the resolved precedence value of `info` absent or non-positive? -/
def nonPosResolve (info : AssetInfo) : Bool :=
  match resolveExponent info with
  | some v => decide (v ≤ 0)
  | none => true

/-- The fuzzy-match loop of `formatBalance`
(`for (const [symbol, info] of assetInfoMap.entries())`).  On a substring
match the running `exponent` variable is overwritten with the resolved
precedence value; the loop breaks — caching the value under the raw denom —
only when that value is defined and strictly positive.  Returns the final
`exponent` together with the possibly-updated `denomExponentMap`. -/
def fuzzyResolveAux (denom : String) :
    List (String × AssetInfo) → Option Int → List (String × Int) →
    Option Int × List (String × Int)
  | [], acc, m => (acc, m)
  | (symbol, info) :: rest, acc, m =>
    if fuzzyMatches denom symbol then
      match resolveExponent info with
      | some v =>
        if 0 < v then (some v, mapSet m denom v)
        else fuzzyResolveAux denom rest (some v) m
      | none => fuzzyResolveAux denom rest none m
    else fuzzyResolveAux denom rest acc m

/-- Exponent resolution of `formatBalance`: exact lookup of the raw denom in
`denomExponentMap` first, fuzzy match over `assetInfoMap` otherwise. -/
def formatBalanceExponent (expMap : List (String × Int))
    (infoEntries : List (String × AssetInfo)) (denom : String) :
    Option Int × List (String × Int) :=
  match mapGet expMap denom with
  | some e => (some e, expMap)
  | none => fuzzyResolveAux denom infoEntries none expMap

/-- The `isConverted` flag computed by `formatBalance`:
`exponent !== undefined || denom.startsWith('u') || denom.startsWith('a')`. -/
def isConvertedFlag (exponent : Option Int) (denom : String) : Bool :=
  exponent.isSome || strStartsWith denom "u" || strStartsWith denom "a"

/-- Exponent selection of `formatSubaccountAsset`: the `denomExponentMap`
entry for the symbol wins; otherwise the precedence expression over the
symbol's `AssetInfo`, when one is known. -/
def formatSubaccountAssetExponent (expMap : List (String × Int))
    (infoEntries : List (String × AssetInfo)) (symbol : String) : Option Int :=
  match mapGet expMap symbol with
  | some e => some e
  | none =>
    match infoGet infoEntries symbol with
    | some info => resolveExponent info
    | none => none

/-! ### Amount conversion (modelled from the spec) -/

/-- Numeric value of a decimal digit, `none` for other characters. -/
def digitVal (c : Char) : Option Nat :=
  if c.isDigit then some (c.toNat - '0'.toNat) else none

/-- Parse a list of decimal digits into a natural number. -/
def parseNatList : List Char → Nat → Option Nat
  | [], acc => some acc
  | c :: cs, acc =>
    match digitVal c with
    | some d => parseNatList cs (acc * 10 + d)
    | none => none

/-- Parse a non-empty decimal string into a natural number. -/
def parseDecNat (s : String) : Option Nat :=
  if s.data.isEmpty then none else parseNatList s.data 0

/-- Strip the conventional single-letter minimal-unit prefixes `u` and `a`
from a raw denom, producing the base denom. -/
def stripMinimalUnit (denom : String) : String :=
  if strStartsWith denom "u" || strStartsWith denom "a" then denom.drop 1 else denom

/-- The output record of the conversion helper: raw amount string, converted
(decimal-shifted) amount, base denom and whether a conversion occurred. -/
structure ConvertedAmount where
  raw : String
  converted : ℚ
  base : String
  didConvert : Bool
  deriving DecidableEq, Repr

/-- Modelled from the spec: `getConvertedAmount` lives in `@/utils/cosmos`,
which is absent from the sources.  Per §4.3, with a resolved exponent the
raw amount is decimal-shifted by that exponent; with no exponent, a denom
carrying a conventional single-letter minimal-unit prefix is converted by
the conventional exponent of that prefix (`u` = micro = 6, `a` = atto = 18,
matching the §8 example `"1500000"`/`"uusdc"` ↦ `1.5`/`"usdc"`) with the
prefix stripped from the base denom; otherwise the amount is shown
unconverted. -/
def getConvertedAmount (amount denom : String) (exponent : Option Int) :
    ConvertedAmount :=
  let q : ℚ := ((parseDecNat amount).getD 0 : Nat)
  match exponent with
  | some e =>
    { raw := amount, converted := q / (10 : ℚ) ^ e,
      base := stripMinimalUnit denom, didConvert := true }
  | none =>
    if strStartsWith denom "u" then
      { raw := amount, converted := q / (10 : ℚ) ^ (6 : Nat),
        base := denom.drop 1, didConvert := true }
    else if strStartsWith denom "a" then
      { raw := amount, converted := q / (10 : ℚ) ^ (18 : Nat),
        base := denom.drop 1, didConvert := true }
    else
      { raw := amount, converted := q, base := denom, didConvert := false }

/-! ### IEEE-754 double rounding of raw amounts

`AccountDetail` computes the Available + Delegated total with
`parseFloat(balance.amount) + parseFloat(stakedForThisToken.amount)`.
For a decimal-integer string, `parseFloat` yields the IEEE-754 binary64
double nearest to the integer (ties to even), and `+` rounds the exact sum
the same way.  The rounding of a non-negative integer to a double is
embedded below. -/

/-- Round `n` to a multiple of `2 ^ k` (round to nearest, ties to even). -/
def roundNearestEven (n k : Nat) : Nat :=
  let p := 2 ^ k
  let q := n / p
  let r := n % p
  let half := p / 2
  if r < half then q * p
  else if half < r then (q + 1) * p
  else if q % 2 = 0 then q * p else (q + 1) * p

/-- Fuel-bounded search for the binary64 ulp exponent of `n`: the least `k`
with `n < 2 ^ (53 + k)`.  A fuel of 1100 covers every finite double. -/
def ulpExpGo (n : Nat) : Nat → Nat → Nat
  | 0, k => k
  | fuel + 1, k => if n < 2 ^ (53 + k) then k else ulpExpGo n fuel (k + 1)

/-- The non-negative integer value of the IEEE-754 binary64 double nearest
to `n` (round to nearest, ties to even); exact below `2 ^ 53`. -/
def floatOfNat (n : Nat) : Nat :=
  if n < 2 ^ 53 then n else roundNearestEven n (ulpExpGo n 1100 0)

/-- The `totalAmount` computation of `AccountDetail`:
`parseFloat(available) + parseFloat(staked)` — both operands pass through
binary64, and so does the sum. -/
def totalAmountCode (available staked : Nat) : Nat :=
  floatOfNat (floatOfNat available + floatOfNat staked)

/-! ### IBC-token pagination -/

/-- `Math.ceil(ibcTokens.length / itemsPerPage)`. -/
def totalPagesOf (count per : Nat) : Nat := (count + per - 1) / per

/-- `Array.prototype.slice(start, stop)` for `start ≤ stop`. -/
def sliceList {α : Type} (l : List α) (start stop : Nat) : List α :=
  (l.drop start).take (stop - start)

/-- The page window: `ibcTokens.slice(startIndex, endIndex)` with
`startIndex = (currentPage - 1) * itemsPerPage` and
`endIndex = startIndex + itemsPerPage`. -/
def paginatedIbc {α : Type} (tokens : List α) (page per : Nat) : List α :=
  sliceList tokens ((page - 1) * per) ((page - 1) * per + per)

/-- `handlePageChange`: `Math.max(1, Math.min(page, totalPages))`. -/
def clampPage (page totalPages : Nat) : Nat :=
  max 1 (min page totalPages)

/-- The reset effect on token-set change:
`if (currentPage > totalPages && totalPages > 0) setCurrentPage(1)`. -/
def pageResetOnChange (currentPage totalPages : Nat) : Nat :=
  if totalPages < currentPage ∧ 0 < totalPages then 1 else currentPage

/-! ### Transaction decoding -/

/-- The inner message loop of the decoding effect: each message is decoded
with the collaborator `decodeMsg`; a failure (`none`) is swallowed and the
message omitted. -/
def decodeMsgs {μ δ : Type} (msgDecode : μ → Option δ) : List μ → List δ
  | [] => []
  | m :: ms =>
    match msgDecode m with
    | some d => d :: decodeMsgs msgDecode ms
    | none => decodeMsgs msgDecode ms

/-- The outer transaction loop: `Tx.decode` of the envelope yields the
message list; an envelope failure drops the transaction from the decoded
set (the raw input list is untouched). -/
def decodeTxs {τ μ δ : Type} (envDecode : τ → Option (List μ))
    (msgDecode : μ → Option δ) : List τ → List (τ × List δ)
  | [] => []
  | tx :: txs =>
    match envDecode tx with
    | some ms => (tx, decodeMsgs msgDecode ms) :: decodeTxs envDecode msgDecode txs
    | none => decodeTxs envDecode msgDecode txs

/-! ### Indexer and metadata REST clients -/

/-- Outcome of a `fetch`: network failure (a rejected promise) or a response
with an HTTP status and a parsed body. -/
inductive FetchOutcome (β : Type) where
  | netError : FetchOutcome β
  | response (status : Nat) (body : β) : FetchOutcome β
  deriving DecidableEq, Repr

/-- `Response.ok`: status in the range 200–299. -/
def respOk (status : Nat) : Bool := 200 ≤ status && status < 300

/-- Position side. -/
inductive Side where
  | long
  | short
  deriving DecidableEq, Repr

/-- The `AssetPosition` record of the indexer client. -/
structure AssetPosition where
  symbol : String
  side : Side
  size : String
  assetId : String
  subaccountNumber : Option Nat
  deriving DecidableEq, Repr

/-- The `Subaccount` record of the indexer client. -/
structure Subaccount where
  address : String
  subaccountNumber : Nat
  assetPositions : List (String × AssetPosition)
  deriving DecidableEq, Repr

/-- Payload of `GET …/parentSubaccountNumber/{n}`. -/
structure ParentSubaccount where
  address : String
  parentSubaccountNumber : Nat
  childSubaccounts : List Subaccount
  deriving DecidableEq, Repr

/-- The `ParentSubaccountResponse` envelope. -/
structure ParentSubaccountResponse where
  subaccount : ParentSubaccount
  deriving DecidableEq, Repr

/-- The `SubaccountResponse` envelope. -/
structure SubaccountResponse where
  subaccounts : List Subaccount
  deriving DecidableEq, Repr

/-- The `AssetPositionsResponse` envelope. -/
structure AssetPositionsResponse where
  positions : List AssetPosition
  deriving DecidableEq, Repr

/-- The empty parent-subaccount result built on 404 and on failure. -/
def emptyParentResponse (address : String) (n : Nat) :
    ParentSubaccountResponse :=
  ⟨⟨address, n, []⟩⟩

/-- Body of `IndexerClient.getParentSubaccount`'s `try` block: a 2xx
response is returned as-is, a 404 becomes the empty result, any other
status throws, and a network failure propagates as an exception. -/
def getParentSubaccountTry (o : FetchOutcome ParentSubaccountResponse)
    (address : String) (n : Nat) : Except Unit ParentSubaccountResponse :=
  match o with
  | .netError => .error ()
  | .response s body =>
    if respOk s then .ok body
    else if s = 404 then .ok (emptyParentResponse address n)
    else .error ()

/-- `IndexerClient.getParentSubaccount`: the surrounding `catch` turns any
exception into the empty result. -/
def getParentSubaccount (o : FetchOutcome ParentSubaccountResponse)
    (address : String) (n : Nat) : ParentSubaccountResponse :=
  match getParentSubaccountTry o address n with
  | .ok r => r
  | .error _ => emptyParentResponse address n

/-- `IndexerClient.getSubaccounts`: wraps `getParentSubaccount` for parent
subaccount 0 and projects the child-subaccount list. -/
def getSubaccounts (o : FetchOutcome ParentSubaccountResponse)
    (address : String) : SubaccountResponse :=
  ⟨(getParentSubaccount o address 0).subaccount.childSubaccounts⟩

/-- Body of `IndexerClient.getSubaccountAssetPositions`'s `try` block. -/
def getSubaccountAssetPositionsTry (o : FetchOutcome AssetPositionsResponse) :
    Except Unit AssetPositionsResponse :=
  match o with
  | .netError => .error ()
  | .response s body =>
    if respOk s then .ok body
    else if s = 404 then .ok ⟨[]⟩
    else .error ()

/-- `IndexerClient.getSubaccountAssetPositions` with its `catch`. -/
def getSubaccountAssetPositions (o : FetchOutcome AssetPositionsResponse) :
    AssetPositionsResponse :=
  match getSubaccountAssetPositionsTry o with
  | .ok r => r
  | .error _ => ⟨[]⟩

/-- Body of `MetadataServiceClient.getAssetInfo`'s `try` block: any non-2xx
response throws. -/
def getAssetInfoTry (o : FetchOutcome (List (String × AssetInfo))) :
    Except Unit (List (String × AssetInfo)) :=
  match o with
  | .netError => .error ()
  | .response s body => if respOk s then .ok body else .error ()

/-- `MetadataServiceClient.getAssetInfo` with its `catch`: failures degrade
to the empty symbol-to-info mapping. -/
def getAssetInfo (o : FetchOutcome (List (String × AssetInfo))) :
    List (String × AssetInfo) :=
  match getAssetInfoTry o with
  | .ok r => r
  | .error _ => []

/-! ### Connection lifecycle (`connectClient` of `Connect/index.tsx`)

The component and store state touched by `connectClient` is collected in
`World`; subscription handles and clients are numbered with a fresh-id
counter, and the lists of currently active handles/live clients record
which resources have not been unsubscribed/disconnected. -/

/-- Local UI state of the `Connect` component. -/
inductive UiState where
  | initial
  | submitting
  | success
  deriving DecidableEq, Repr

/-- Outcome of an awaited collaborator call: an exception or a value. -/
inductive JsCall (α : Type) where
  | throws : JsCall α
  | returns (value : α) : JsCall α
  deriving DecidableEq, Repr

/-- Store and component state visible to `connectClient`. -/
structure World where
  connectState : Bool
  tmClient : Option Nat
  rpcAddress : Option String
  subsNewBlock : Option Nat
  subsTxEvent : Option Nat
  newBlock : Option Nat
  txEvent : Option Nat
  uiState : UiState
  errorFlag : Bool
  activeNewBlock : List Nat
  activeTx : List Nat
  liveClients : List Nat
  nextId : Nat
  deriving DecidableEq, Repr

/-- Behaviour of the collaborators during one `connectClient` run:
`validateConnection` and `connectWebsocketClient` may throw or return
(`returns false` meaning an invalid address resp. a falsy client), and each
`subscribe*` call may throw. -/
structure ConnectEnv where
  validation : JsCall Bool
  clientCreation : JsCall Bool
  subNewBlockThrows : Bool
  subTxThrows : Bool
  deriving DecidableEq, Repr

/-- The teardown block of `connectClient`: unsubscribe and null out both
stored subscriptions, disconnect the previous client (which stays in the
store), and reset the latest-block/latest-tx slots. -/
def tearDown (w : World) : World :=
  let w1 :=
    match w.subsNewBlock with
    | some h =>
      { w with activeNewBlock := w.activeNewBlock.erase h, subsNewBlock := none }
    | none => w
  let w2 :=
    match w1.subsTxEvent with
    | some h =>
      { w1 with activeTx := w1.activeTx.erase h, subsTxEvent := none }
    | none => w1
  let w3 :=
    match w2.tmClient with
    | some c => { w2 with liveClients := w2.liveClients.erase c }
    | none => w2
  { w3 with newBlock := none, txEvent := none }

/-- The `connectClient` function: clear the error flag and enter
`submitting`; bail out on an empty address or failed validation; tear down
the previous subscriptions and client; create the new client; publish
connection state; create the two subscriptions and store their handles.
Any thrown exception lands in the outer `catch`, which sets the error flag
and returns the UI to `initial` without reverting the store. -/
def connectClient (env : ConnectEnv) (rpcAddress : String) (w : World) :
    World :=
  let w1 := { w with errorFlag := false, uiState := UiState.submitting }
  if rpcAddress = "" then { w1 with errorFlag := true, uiState := UiState.initial }
  else
    match env.validation with
    | JsCall.throws => { w1 with errorFlag := true, uiState := UiState.initial }
    | JsCall.returns false => { w1 with errorFlag := true, uiState := UiState.initial }
    | JsCall.returns true =>
      let w2 := tearDown w1
      match env.clientCreation with
      | JsCall.throws => { w2 with errorFlag := true, uiState := UiState.initial }
      | JsCall.returns false => { w2 with errorFlag := true, uiState := UiState.initial }
      | JsCall.returns true =>
        let c := w2.nextId
        let w3 := { w2 with
          liveClients := c :: w2.liveClients, nextId := w2.nextId + 1,
          connectState := true, tmClient := some c,
          rpcAddress := some rpcAddress }
        if env.subNewBlockThrows then
          { w3 with errorFlag := true, uiState := UiState.initial }
        else
          let h1 := w3.nextId
          let w4 := { w3 with
            activeNewBlock := h1 :: w3.activeNewBlock, nextId := w3.nextId + 1 }
          if env.subTxThrows then
            { w4 with errorFlag := true, uiState := UiState.initial }
          else
            let h2 := w4.nextId
            let w5 := { w4 with
              activeTx := h2 :: w4.activeTx, nextId := w4.nextId + 1 }
            { w5 with
              subsNewBlock := some h1
              subsTxEvent := some h2
              uiState := UiState.success }

/-! ### Concrete fixtures used by counterexamples and witnesses -/

/-- An asset whose metadata defines none of the three precision fields. -/
def infoNoRes : AssetInfo := ⟨"ab", "NoRes", none, none, none⟩

/-- An asset resolving to exponent 6 via `atomicResolution`. -/
def infoSix : AssetInfo := ⟨"abc", "Six", none, some 6, none⟩

/-- An asset whose resolved precedence value is negative. -/
def infoNeg : AssetInfo := ⟨"NEG", "Neg", none, some (-5), none⟩

/-- An asset whose resolved precedence value is 3. -/
def infoPos : AssetInfo := ⟨"POS", "Pos", some 8, some 3, none⟩

/-- Metadata entries mixing a non-positive and a positive resolution. -/
def entriesMixed : List (String × AssetInfo) :=
  [("NEG", infoNeg), ("POS", infoPos)]

/-- A fully disconnected clean world. -/
def cleanWorld : World :=
  { connectState := false, tmClient := none, rpcAddress := none,
    subsNewBlock := none, subsTxEvent := none, newBlock := none,
    txEvent := none, uiState := UiState.initial, errorFlag := false,
    activeNewBlock := [], activeTx := [], liveClients := [], nextId := 0 }

/-- Collaborators where everything succeeds until the new-block
subscription, which throws. -/
def envSubNewBlockThrows : ConnectEnv :=
  { validation := JsCall.returns true, clientCreation := JsCall.returns true,
    subNewBlockThrows := true, subTxThrows := false }

/-- Collaborators where every call succeeds. -/
def envAllOk : ConnectEnv :=
  { validation := JsCall.returns true, clientCreation := JsCall.returns true,
    subNewBlockThrows := false, subTxThrows := false }

/-- A world holding an established connection: client 0 live, new-block
handle 1 and transaction handle 2 active and stored. -/
def connectedWorld : World :=
  { connectState := true, tmClient := some 0, rpcAddress := some "old",
    subsNewBlock := some 1, subsTxEvent := some 2, newBlock := none,
    txEvent := none, uiState := UiState.success, errorFlag := false,
    activeNewBlock := [1], activeTx := [2], liveClients := [0], nextId := 3 }

/-- Envelope decoder for the decoding witness: transaction 1 decodes to the
message list `[0, 1]`, everything else fails. -/
def envD0 : Nat → Option (List Nat) :=
  fun t => if t = 1 then some [0, 1] else none

/-- Message decoder for the decoding witness: message 0 decodes to 99,
everything else fails. -/
def msgD0 : Nat → Option Nat :=
  fun m => if m = 0 then some 99 else none

/-- A non-empty parent-subaccount body, to show it is discarded on error
statuses. -/
def parentBody0 : ParentSubaccountResponse :=
  ⟨⟨"dydx1xyz", 0, [⟨"dydx1xyz", 0, []⟩]⟩⟩

/-! ## Theorems -/

/-- C1: for every asset whose metadata record defines `atomicResolution`,
the precision resolver selects `atomicResolution` as the exponent; only if
`atomicResolution` is absent does it fall back to `denomExponent`, and only
if both are absent does it fall back to `decimals`. -/
theorem resolveExponent_precedence (info : AssetInfo) :
    (∀ a, info.atomicResolution = some a → resolveExponent info = some a) ∧
    (info.atomicResolution = none →
      ∀ d, info.denomExponent = some d → resolveExponent info = some d) ∧
    (info.atomicResolution = none → info.denomExponent = none →
      resolveExponent info = info.decimals) := by
  refine ⟨?_, ?_, ?_⟩ <;> intros <;>
    simp_all [resolveExponent, Option.orElse]

/-- Witness for C1: an asset defining `atomicResolution = 3` (and
`decimals = 8`) resolves to exponent 3. -/
theorem resolveExponent_precedence_witness :
    resolveExponent infoPos = some 3 :=
  (resolveExponent_precedence infoPos).1 3 rfl

/-- C6: the raw amount `"1500000"` with denom `"uusdc"` and no resolvable
exponent converts to `1.5` with base denom `"usdc"` (the `u` prefix
stripped), and the result is flagged as converted. -/
theorem getConvertedAmount_uusdc :
    (getConvertedAmount "1500000" "uusdc" none).converted = 3 / 2 ∧
    (getConvertedAmount "1500000" "uusdc" none).base = "usdc" ∧
    (getConvertedAmount "1500000" "uusdc" none).didConvert = true ∧
    isConvertedFlag none "uusdc" = true := by
  have hp : parseDecNat "1500000" = some 1500000 := by decide
  have hu : strStartsWith "uusdc" "u" = true := by decide
  refine ⟨?_, by decide, by decide, by decide⟩
  simp only [getConvertedAmount, hp, hu, if_true, Option.getD_some]
  norm_num

/-- C7 counterexample: when the token set shrinks to 0 tokens there are 0
pages, the current page 2 exceeds `totalPages`, yet the reset effect leaves
the current page at 2 (its `totalPages > 0` guard fails), so the page is
not reset to 1 and lies outside `[1, totalPages]`. -/
theorem pagination_empty_set_counterexample :
    totalPagesOf 0 10 = 0 ∧
    totalPagesOf 0 10 < 2 ∧
    pageResetOnChange 2 (totalPagesOf 0 10) = 2 ∧
    pageResetOnChange 2 (totalPagesOf 0 10) ≠ 1 := by
  decide

/-- C7 (amended): with 23 IBC tokens and page size 10 there are 3 pages,
page 3 shows exactly the items at indices 20–22, requests for pages 0 and 4
clamp to 1 and 3, and whenever the current page exceeds `totalPages` while
at least one page exists (`totalPages > 0`) the reset effect sets the
current page back to 1; with an empty token set (`totalPages = 0`) no reset
occurs. -/
theorem pagination_clamped :
    totalPagesOf 23 10 = 3 ∧
    paginatedIbc (List.range 23) 3 10 = [20, 21, 22] ∧
    clampPage 0 (totalPagesOf 23 10) = 1 ∧
    clampPage 4 (totalPagesOf 23 10) = 3 ∧
    (∀ currentPage totalPages : Nat, 0 < totalPages →
      totalPages < currentPage →
      pageResetOnChange currentPage totalPages = 1) := by
  refine ⟨by decide, by decide, by decide, by decide, ?_⟩
  intro currentPage totalPages h1 h2
  simp [pageResetOnChange, h1, h2]

/-- Witness for C7: current page 5 with 3 total pages resets to 1. -/
theorem pagination_clamped_witness : pageResetOnChange 5 3 = 1 :=
  pagination_clamped.2.2.2.2 5 3 (by decide) (by decide)

/-- C5: the Available + Delegated total is computed with
`parseFloat(...) + parseFloat(...)`, i.e. through binary64 floating point;
at available `9007199254740993` (2^53 + 1) and staked `2` the computed
total is `9007199254740994`, not the exact `9007199254740995`, so raw
amounts are not processed with arbitrary-precision arithmetic. -/
theorem totalAmount_parseFloat_precision_loss :
    totalAmountCode 9007199254740993 2 = 9007199254740994 ∧
    9007199254740993 + 2 = 9007199254740995 ∧
    totalAmountCode 9007199254740993 2 ≠ 9007199254740993 + 2 := by
  decide

/-- C2 counterexample: for denom `"ab"` against the metadata map
`[("ab", infoNoRes), ("abc", infoSix)]`, the first symbol satisfying the
case-insensitive containment condition is `"ab"`, whose resolved exponent
is undefined; the claim therefore predicts an undefined exponent, but the
code continues past the first match and returns exponent 6 from the second
matching symbol. -/
theorem fuzzyMatch_first_match_counterexample :
    List.find? (fun p => fuzzyMatches "ab" p.1)
        [("ab", infoNoRes), ("abc", infoSix)] = some ("ab", infoNoRes) ∧
    resolveExponent infoNoRes = none ∧
    (formatBalanceExponent [] [("ab", infoNoRes), ("abc", infoSix)] "ab").1 =
      some 6 ∧
    (formatBalanceExponent [] [("ab", infoNoRes), ("abc", infoSix)] "ab").1 ≠
      resolveExponent infoNoRes := by
  decide

/-- C2 (amended): when a raw denom has no exact entry in the exponent map,
the fuzzy match accepts the first symbol (in the metadata map's insertion
order) that satisfies the case-insensitive containment condition AND whose
resolved exponent is defined and strictly positive; a containment match
with an undefined or non-positive resolved exponent does not stop the
iteration (its resolved value merely overwrites the running exponent). -/
theorem fuzzyMatch_first_positive_match (denom : String)
    (entries : List (String × AssetInfo)) (acc : Option Int)
    (m : List (String × Int)) (p : String × AssetInfo)
    (hfind : List.find? (fun q => fuzzyMatches denom q.1 && posResolve q.2)
      entries = some p) :
    (fuzzyResolveAux denom entries acc m).1 = resolveExponent p.2 := by
  induction entries generalizing acc with
  | nil => simp at hfind
  | cons hd tl ih =>
    rcases hd with ⟨s, i⟩
    by_cases hmatch : fuzzyMatches denom s
    · by_cases hpos : posResolve i = true
      · have hp : p = (s, i) := by
          rw [List.find?_cons_of_pos _ (by simp [hmatch, hpos])] at hfind
          exact (Option.some.inj hfind).symm
        subst hp
        unfold posResolve at hpos
        rcases hres : resolveExponent i with _ | v
        · rw [hres] at hpos; simp at hpos
        · rw [hres] at hpos
          simp only [decide_eq_true_eq] at hpos
          simp [fuzzyResolveAux, hmatch, hres, hpos]
      · rw [List.find?_cons_of_neg _ (by simp [hpos])] at hfind
        unfold posResolve at hpos
        rcases hres : resolveExponent i with _ | v
        · simp only [fuzzyResolveAux, hmatch, if_true, hres]
          exact ih none hfind
        · rw [hres] at hpos
          simp only [decide_eq_true_eq, Bool.not_eq_true] at hpos
          have hv : ¬ (0 : Int) < v := by
            intro h; exact hpos (by simpa using h)
          simp only [fuzzyResolveAux, hmatch, if_true, hres, hv, if_false]
          exact ih (some v) hfind
    · rw [List.find?_cons_of_neg _ (by simp [hmatch])] at hfind
      simp only [fuzzyResolveAux, hmatch]
      exact ih acc hfind

/-- Witness for C2: for denom `"ab"` over the two-entry metadata map the
first positively-resolving containment match is `("abc", infoSix)`, and the
loop indeed returns its resolved exponent. -/
theorem fuzzyMatch_first_positive_match_witness :
    (fuzzyResolveAux "ab" [("ab", infoNoRes), ("abc", infoSix)] none []).1 =
      resolveExponent infoSix :=
  fuzzyMatch_first_positive_match "ab" [("ab", infoNoRes), ("abc", infoSix)]
    none [] ("abc", infoSix) (by decide)

/-- A transaction whose envelope decodes keeps exactly its decodable
messages in the decoded set. -/
theorem mem_decodeTxs {τ μ δ : Type} (envDecode : τ → Option (List μ))
    (msgDecode : μ → Option δ) :
    ∀ (txs : List τ) (tx : τ) (ms : List μ), tx ∈ txs →
      envDecode tx = some ms →
      (tx, decodeMsgs msgDecode ms) ∈ decodeTxs envDecode msgDecode txs := by
  intro txs
  induction txs with
  | nil => intro tx ms htx; simp at htx
  | cons hd tl ih =>
    intro tx ms htx henv
    rcases List.mem_cons.mp htx with h | h
    · subst h
      simp [decodeTxs, henv]
    · rcases he : envDecode hd with _ | ms'
      · simpa [decodeTxs, he] using ih tx ms h henv
      · simp only [decodeTxs, he]
        exact List.mem_cons_of_mem _ (ih tx ms h henv)

/-- A transaction whose envelope fails to decode appears nowhere in the
decoded set. -/
theorem not_mem_decodeTxs {τ μ δ : Type} (envDecode : τ → Option (List μ))
    (msgDecode : μ → Option δ) :
    ∀ (txs : List τ) (tx : τ), envDecode tx = none →
      ∀ p ∈ decodeTxs envDecode msgDecode txs, p.1 ≠ tx := by
  intro txs
  induction txs with
  | nil => intro tx henv p hp; simp [decodeTxs] at hp
  | cons hd tl ih =>
    intro tx henv p hp
    rcases he : envDecode hd with _ | ms'
    · rw [decodeTxs, he] at hp
      exact ih tx henv p hp
    · rw [decodeTxs, he] at hp
      rcases List.mem_cons.mp hp with h | h
      · subst h
        intro hcontra
        simp only at hcontra
        rw [hcontra] at he
        rw [he] at henv
        cases henv
      · exact ih tx henv p h

/-- C8: transaction decoding is partial-result tolerant: a transaction in
the fetched list whose envelope decodes contributes its decodable messages
(an undecodable message among two leaves a decoded list of length 1), and a
transaction whose envelope fails to decode is omitted from the decoded set
while the raw list — the unchanged input — still contains it. -/
theorem decodeTxs_partial_tolerance {τ μ δ : Type}
    (envDecode : τ → Option (List μ)) (msgDecode : μ → Option δ)
    (txs : List τ) (tx : τ) (ms : List μ) :
    (tx ∈ txs → envDecode tx = some ms →
      (tx, decodeMsgs msgDecode ms) ∈ decodeTxs envDecode msgDecode txs) ∧
    (envDecode tx = none →
      (∀ p ∈ decodeTxs envDecode msgDecode txs, p.1 ≠ tx)) ∧
    (∀ m₁ m₂ d₁, msgDecode m₁ = some d₁ → msgDecode m₂ = none →
      decodeMsgs msgDecode [m₁, m₂] = [d₁]) := by
  refine ⟨fun htx henv => mem_decodeTxs envDecode msgDecode txs tx ms htx henv,
    fun henv => not_mem_decodeTxs envDecode msgDecode txs tx henv,
    fun m₁ m₂ d₁ h₁ h₂ => ?_⟩
  simp [decodeMsgs, h₁, h₂]

/-- Witness for C8: with envelope decoder `envD0` (transaction 1 carries
messages `[0, 1]`, transaction 2 undecodable) and message decoder `msgD0`
(message 0 decodes to 99, message 1 fails), decoding `[1, 2]` keeps
transaction 1 with the single decoded message and omits transaction 2. -/
theorem decodeTxs_partial_tolerance_witness :
    (1, [99]) ∈ decodeTxs envD0 msgD0 [1, 2] ∧
    (∀ p ∈ decodeTxs envD0 msgD0 [1, 2], p.1 ≠ 2) ∧
    decodeMsgs msgD0 [0, 1] = [99] := by
  refine ⟨?_, ?_, ?_⟩
  · exact (decodeTxs_partial_tolerance envD0 msgD0 [1, 2] 1 [0, 1]).1
      (by decide) (by decide)
  · exact (decodeTxs_partial_tolerance envD0 msgD0 [1, 2] 2 []).2.1 (by decide)
  · exact (decodeTxs_partial_tolerance envD0 msgD0 [1, 2] 1 [0, 1]).2.2 0 1 99
      (by decide) (by decide)

/-- C9: collaborator-API failures never propagate: an indexer 404 yields
the empty parent-subaccount/position result, and any network failure or
non-2xx response of the indexer or metadata clients degrades to the empty
result (empty child-subaccount list, empty position list, empty
symbol-to-info mapping) instead of surfacing an error. -/
theorem clients_degrade_to_empty :
    (∀ (address : String) (n : Nat) (body : ParentSubaccountResponse),
      getParentSubaccount (FetchOutcome.response 404 body) address n =
        emptyParentResponse address n) ∧
    (∀ (address : String) (n : Nat),
      getParentSubaccount FetchOutcome.netError address n =
        emptyParentResponse address n) ∧
    (∀ (address : String) (n s : Nat) (body : ParentSubaccountResponse),
      respOk s = false →
      getParentSubaccount (FetchOutcome.response s body) address n =
        emptyParentResponse address n) ∧
    (∀ (address : String) (s : Nat) (body : ParentSubaccountResponse),
      respOk s = false →
      getSubaccounts (FetchOutcome.response s body) address = ⟨[]⟩) ∧
    (∀ body : AssetPositionsResponse,
      getSubaccountAssetPositions (FetchOutcome.response 404 body) = ⟨[]⟩) ∧
    (getSubaccountAssetPositions FetchOutcome.netError = ⟨[]⟩) ∧
    (∀ (s : Nat) (body : AssetPositionsResponse), respOk s = false →
      getSubaccountAssetPositions (FetchOutcome.response s body) = ⟨[]⟩) ∧
    (getAssetInfo FetchOutcome.netError = []) ∧
    (∀ (s : Nat) (body : List (String × AssetInfo)), respOk s = false →
      getAssetInfo (FetchOutcome.response s body) = []) := by
  have h404 : respOk 404 = false := by decide
  refine ⟨?_, ?_, ?_, ?_, ?_, ?_, ?_, ?_, ?_⟩
  · intro a n b
    simp [getParentSubaccount, getParentSubaccountTry, h404]
  · intro a n
    simp [getParentSubaccount, getParentSubaccountTry]
  · intro a n s b hs
    rcases eq_or_ne s 404 with h4 | h4 <;>
      simp [getParentSubaccount, getParentSubaccountTry, hs, h4, h404]
  · intro a s b hs
    rcases eq_or_ne s 404 with h4 | h4 <;>
      simp [getSubaccounts, getParentSubaccount, getParentSubaccountTry, hs,
        h4, h404, emptyParentResponse]
  · intro b
    simp [getSubaccountAssetPositions, getSubaccountAssetPositionsTry, h404]
  · simp [getSubaccountAssetPositions, getSubaccountAssetPositionsTry]
  · intro s b hs
    rcases eq_or_ne s 404 with h4 | h4 <;>
      simp [getSubaccountAssetPositions, getSubaccountAssetPositionsTry, hs, h4,
        h404]
  · simp [getAssetInfo, getAssetInfoTry]
  · intro s b hs
    simp [getAssetInfo, getAssetInfoTry, hs]

/-- Witness for C9: a 500 response carrying a non-empty parent-subaccount
body is replaced by the empty result, and a 404 yields the empty
position/info results. -/
theorem clients_degrade_to_empty_witness :
    getParentSubaccount (FetchOutcome.response 500 parentBody0) "dydx1xyz" 0 =
      emptyParentResponse "dydx1xyz" 0 ∧
    getSubaccountAssetPositions
      (FetchOutcome.response 404 (⟨[]⟩ : AssetPositionsResponse)) = ⟨[]⟩ ∧
    getAssetInfo (FetchOutcome.response 503 [("USDC", infoPos)]) = [] :=
  ⟨clients_degrade_to_empty.2.2.1 "dydx1xyz" 0 500 parentBody0 (by decide),
   clients_degrade_to_empty.2.2.2.2.1 ⟨[]⟩,
   clients_degrade_to_empty.2.2.2.2.2.2.2.2 503 [("USDC", infoPos)] (by decide)⟩

/-- `Map.set` with a strictly positive value keeps every value in the map
strictly positive. -/
theorem mapSet_pos (m : List (String × Int)) (k : String) (v : Int)
    (hm : ∀ p ∈ m, 0 < p.2) (hv : 0 < v) :
    ∀ p ∈ mapSet m k v, 0 < p.2 := by
  induction m with
  | nil =>
    intro p hp
    simp [mapSet] at hp
    subst hp
    exact hv
  | cons hd tl ih =>
    intro p hp
    rcases hd with ⟨k', v'⟩
    by_cases hk : k' = k
    · simp only [mapSet, hk, if_true] at hp
      rcases List.mem_cons.mp hp with h | h
      · subst h; exact hv
      · exact hm p (List.mem_cons_of_mem _ h)
    · simp only [mapSet, hk, if_false] at hp
      rcases List.mem_cons.mp hp with h | h
      · subst h; exact hm _ (List.mem_cons_self _ _)
      · exact ih (fun q hq => hm q (List.mem_cons_of_mem _ hq)) p h

/-- `Map.set` under a different key does not affect a lookup. -/
theorem mapGet_mapSet_ne (m : List (String × Int)) (k s : String) (v : Int)
    (h : k ≠ s) : mapGet (mapSet m k v) s = mapGet m s := by
  induction m with
  | nil => simp [mapSet, mapGet, h]
  | cons hd tl ih =>
    rcases hd with ⟨k', v'⟩
    have hsk : s ≠ k := Ne.symm h
    by_cases hk : k' = k
    · simp [mapSet, mapGet, hk, h, hsk]
    · by_cases hs : k' = s
      · simp [mapSet, mapGet, hk, hs, hsk]
      · simp [mapSet, mapGet, hk, hs, ih]

/-- The ingestion loop only ever inserts strictly positive exponents. -/
theorem buildExponentMapAux_pos :
    ∀ (entries : List (String × AssetInfo)) (m : List (String × Int)),
      (∀ p ∈ m, 0 < p.2) → ∀ p ∈ buildExponentMapAux entries m, 0 < p.2 := by
  intro entries
  induction entries with
  | nil =>
    intro m hm
    simpa [buildExponentMapAux] using hm
  | cons hd tl ih =>
    intro m hm
    rcases hd with ⟨s, i⟩
    rcases hres : resolveExponent i with _ | e
    · simp only [buildExponentMapAux, hres]
      exact ih m hm
    · by_cases he : (0 : Int) < e
      · simp only [buildExponentMapAux, hres, he, if_true]
        exact ih _ (mapSet_pos m s e hm he)
      · simp only [buildExponentMapAux, hres, he, if_false]
        exact ih m hm

/-- A symbol all of whose metadata entries resolve to an undefined or
non-positive value is never inserted by the ingestion loop. -/
theorem buildExponentMapAux_get_none :
    ∀ (entries : List (String × AssetInfo)) (m : List (String × Int))
      (s : String), mapGet m s = none →
      (entries.all fun q => !(q.1 == s) || nonPosResolve q.2) = true →
      mapGet (buildExponentMapAux entries m) s = none := by
  intro entries
  induction entries with
  | nil =>
    intro m s hm _
    simpa [buildExponentMapAux] using hm
  | cons hd tl ih =>
    intro m s hm hall
    rcases hd with ⟨s₁, i⟩
    rw [List.all_cons, Bool.and_eq_true] at hall
    rcases hall with ⟨hhd, htl⟩
    rcases hres : resolveExponent i with _ | e
    · simp only [buildExponentMapAux, hres]
      exact ih m s hm htl
    · by_cases he : (0 : Int) < e
      · have hne : s₁ ≠ s := by
          intro hcontra
          subst hcontra
          simp only [beq_self_eq_true, Bool.not_true, Bool.false_or,
            nonPosResolve, hres, decide_eq_true_eq] at hhd
          omega
        simp only [buildExponentMapAux, hres, he, if_true]
        exact ih _ s (by rw [mapGet_mapSet_ne m s₁ s e hne]; exact hm) htl
      · simp only [buildExponentMapAux, hres, he, if_false]
        exact ih m s hm htl

/-- The fuzzy-match loop preserves strict positivity of the exponent map:
it only caches a value after checking it is strictly positive. -/
theorem fuzzyResolveAux_pos :
    ∀ (entries : List (String × AssetInfo)) (denom : String)
      (acc : Option Int) (m : List (String × Int)),
      (∀ p ∈ m, 0 < p.2) →
      ∀ p ∈ (fuzzyResolveAux denom entries acc m).2, 0 < p.2 := by
  intro entries
  induction entries with
  | nil =>
    intro denom acc m hm
    simpa [fuzzyResolveAux] using hm
  | cons hd tl ih =>
    intro denom acc m hm
    rcases hd with ⟨s, i⟩
    by_cases hmatch : fuzzyMatches denom s
    · rcases hres : resolveExponent i with _ | v
      · simp only [fuzzyResolveAux, hmatch, if_true, hres]
        exact ih denom none m hm
      · by_cases hv : (0 : Int) < v
        · simp only [fuzzyResolveAux, hmatch, if_true, hres, hv]
          exact mapSet_pos m denom v hm hv
        · simp only [fuzzyResolveAux, hmatch, if_true, hres, hv, if_false]
          exact ih denom (some v) m hm
    · simp only [fuzzyResolveAux, hmatch, if_false]
      exact ih denom acc m hm

/-- C10: the symbol-to-exponent map only ever contains strictly positive
exponents: the ingestion loop inserts nothing for an asset whose resolved
precedence value is undefined, zero or negative, and the fuzzy-match cache
in `formatBalance` preserves the invariant. -/
theorem exponentMap_only_positive :
    (∀ entries, ∀ p ∈ buildExponentMap entries, 0 < p.2) ∧
    (∀ entries (s : String),
      (entries.all fun q => !(q.1 == s) || nonPosResolve q.2) = true →
      mapGet (buildExponentMap entries) s = none) ∧
    (∀ (denom : String) entries (m : List (String × Int)),
      (∀ p ∈ m, 0 < p.2) →
      ∀ p ∈ (fuzzyResolveAux denom entries none m).2, 0 < p.2) :=
  ⟨fun entries => buildExponentMapAux_pos entries [] (by simp),
   fun entries s hall => buildExponentMapAux_get_none entries [] s rfl hall,
   fun denom entries m hm => fuzzyResolveAux_pos entries denom none m hm⟩

/-- Witness for C10: the asset resolving to −5 contributes no entry, while
the entry produced for the asset resolving to 3 is strictly positive. -/
theorem exponentMap_only_positive_witness :
    mapGet (buildExponentMap [("NEG", infoNeg)]) "NEG" = none ∧
    (0 : Int) < 3 :=
  ⟨exponentMap_only_positive.2.1 [("NEG", infoNeg)] "NEG" (by decide),
   exponentMap_only_positive.1 entriesMixed ("POS", 3) (by decide)⟩

/-- C3 counterexample: starting from a clean disconnected world, a run in
which validation and client creation succeed but the new-block subscription
throws ends with the error flag set and the UI back at `initial`, yet the
Redux connected flag is `true` with no subscription stored — a partially
connected state, contradicting "the resulting state is fully
disconnected". -/
theorem connectClient_half_connected_counterexample :
    (connectClient envSubNewBlockThrows "rpc" cleanWorld).errorFlag = true ∧
    (connectClient envSubNewBlockThrows "rpc" cleanWorld).uiState =
      UiState.initial ∧
    (connectClient envSubNewBlockThrows "rpc" cleanWorld).connectState = true ∧
    (connectClient envSubNewBlockThrows "rpc" cleanWorld).subsNewBlock =
      none ∧
    (connectClient envSubNewBlockThrows "rpc" cleanWorld).subsTxEvent =
      none := by
  decide

/-- C3 (amended): every failure path of `connectClient` (empty address,
failed validation, failed client creation, or an exception anywhere in the
body) sets the single boolean error flag and returns the UI state to
`initial`; however the store's connection state is not reverted, so a
failure after the connected flag is published leaves an observable
partially connected state. -/
theorem connectClient_failure_sets_error_flag (env : ConnectEnv)
    (addr : String) (w : World) :
    (connectClient env addr w).uiState = UiState.success ∨
    ((connectClient env addr w).errorFlag = true ∧
      (connectClient env addr w).uiState = UiState.initial) := by
  rcases env with ⟨val, cc, snb, stx⟩
  by_cases haddr : addr = ""
  · right; simp [connectClient, haddr]
  · rcases val with _ | b
    · right; simp [connectClient, haddr]
    · rcases b with _ | _
      · right; simp [connectClient, haddr]
      · rcases cc with _ | b2
        · right; simp [connectClient, haddr]
        · rcases b2 with _ | _
          · right; simp [connectClient, haddr]
          · rcases snb with _ | _
            · rcases stx with _ | _
              · left; simp [connectClient, haddr]
              · right; simp [connectClient, haddr]
            · right; simp [connectClient, haddr]

/-- When the store's handles are exactly the active resources, the teardown
block deactivates everything and leaves the fresh-id counter unchanged. -/
theorem tearDown_fields (w : World)
    (hNB : w.activeNewBlock = w.subsNewBlock.toList)
    (hTx : w.activeTx = w.subsTxEvent.toList)
    (hCl : w.liveClients = w.tmClient.toList) :
    (tearDown w).activeNewBlock = [] ∧ (tearDown w).activeTx = [] ∧
    (tearDown w).liveClients = [] ∧ (tearDown w).nextId = w.nextId := by
  rcases hnb : w.subsNewBlock with _ | h <;>
    rcases htx : w.subsTxEvent with _ | h' <;>
      rcases hcl : w.tmClient with _ | c <;>
        simp [tearDown, hnb, htx, hcl, hNB, hTx, hCl, Option.toList,
          List.erase_cons_head]

/-- C4: after every successful (re)connect there is exactly one active
new-block subscription and exactly one active transaction subscription: the
previously stored handles are unsubscribed and the previous client
disconnected before the new client and subscriptions are created, so the
post-run state holds exactly the two fresh handles and none of the previous
resources remains active. -/
theorem connectClient_reconnect_single_subscription (env : ConnectEnv)
    (addr : String) (w : World)
    (hownNB : w.activeNewBlock = w.subsNewBlock.toList)
    (hownTx : w.activeTx = w.subsTxEvent.toList)
    (hownCl : w.liveClients = w.tmClient.toList)
    (hbNB : ∀ h ∈ w.subsNewBlock.toList, h < w.nextId)
    (hbTx : ∀ h ∈ w.subsTxEvent.toList, h < w.nextId)
    (hbCl : ∀ c ∈ w.tmClient.toList, c < w.nextId)
    (hsucc : (connectClient env addr w).uiState = UiState.success) :
    ∃ h1 h2,
      (connectClient env addr w).subsNewBlock = some h1 ∧
      (connectClient env addr w).subsTxEvent = some h2 ∧
      (connectClient env addr w).activeNewBlock = [h1] ∧
      (connectClient env addr w).activeTx = [h2] ∧
      (∀ h0 ∈ w.subsNewBlock.toList,
        h0 ∉ (connectClient env addr w).activeNewBlock) ∧
      (∀ h0 ∈ w.subsTxEvent.toList,
        h0 ∉ (connectClient env addr w).activeTx) ∧
      (∀ c0 ∈ w.tmClient.toList,
        c0 ∉ (connectClient env addr w).liveClients) := by
  rcases env with ⟨val, cc, snb, stx⟩
  by_cases haddr : addr = ""
  · simp [connectClient, haddr] at hsucc
  · rcases val with _ | b
    · simp [connectClient, haddr] at hsucc
    · rcases b with _ | _
      · simp [connectClient, haddr] at hsucc
      · rcases cc with _ | b2
        · simp [connectClient, haddr] at hsucc
        · rcases b2 with _ | _
          · simp [connectClient, haddr] at hsucc
          · rcases snb with _ | _
            · rcases stx with _ | _
              · have hT := tearDown_fields
                  { w with errorFlag := false, uiState := UiState.submitting }
                  (by simpa using hownNB) (by simpa using hownTx)
                  (by simpa using hownCl)
                rcases hT with ⟨hA, hB, hC, hD⟩
                refine ⟨w.nextId + 1, w.nextId + 2, ?_, ?_, ?_, ?_, ?_, ?_, ?_⟩
                · simp [connectClient, haddr, hD]
                · simp [connectClient, haddr, hD]
                · simp [connectClient, haddr, hA, hD]
                · simp [connectClient, haddr, hB, hD]
                · intro h0 hh0
                  have hlt := hbNB h0 hh0
                  simp [connectClient, haddr, hA, hD]
                  omega
                · intro h0 hh0
                  have hlt := hbTx h0 hh0
                  simp [connectClient, haddr, hB, hD]
                  omega
                · intro c0 hc0
                  have hlt := hbCl c0 hc0
                  simp [connectClient, haddr, hC, hD]
                  omega
              · simp [connectClient, haddr] at hsucc
            · simp [connectClient, haddr] at hsucc

/-- Witness for C4: reconnecting from an established connection (client 0,
handles 1 and 2) with all collaborators succeeding leaves exactly one
active subscription of each type. -/
theorem connectClient_reconnect_single_subscription_witness :
    ∃ h1 h2,
      (connectClient envAllOk "new" connectedWorld).subsNewBlock = some h1 ∧
      (connectClient envAllOk "new" connectedWorld).subsTxEvent = some h2 ∧
      (connectClient envAllOk "new" connectedWorld).activeNewBlock = [h1] ∧
      (connectClient envAllOk "new" connectedWorld).activeTx = [h2] ∧
      (∀ h0 ∈ connectedWorld.subsNewBlock.toList,
        h0 ∉ (connectClient envAllOk "new" connectedWorld).activeNewBlock) ∧
      (∀ h0 ∈ connectedWorld.subsTxEvent.toList,
        h0 ∉ (connectClient envAllOk "new" connectedWorld).activeTx) ∧
      (∀ c0 ∈ connectedWorld.tmClient.toList,
        c0 ∉ (connectClient envAllOk "new" connectedWorld).liveClients) :=
  connectClient_reconnect_single_subscription envAllOk "new" connectedWorld
    (by decide) (by decide) (by decide) (by decide) (by decide) (by decide)
    (by decide)
